import Mathlib

/-!
Shallow embedding of the ranking core of `zotero-arxiv-daily`
(`src/recommender.py` and `src/utils.py`).

Modelling conventions:
* Python floats are modelled as exact reals (`ℝ`) in the ranking pipeline and
  as exact rationals (`ℚ`) in the star-rating helper; float rounding error is
  out of scope.
* The external embedding backends (the sentence-transformer model and the
  remote HTTP endpoint) are modelled as oracle functions supplied as
  parameters; `Option`/failure encodes a raised exception or a failed call.
* Python `sorted` (stable, `reverse=True`) is modelled by `List.mergeSort`
  with the reversed comparison, which has the same stable semantics.
-/

namespace ZoteroArxiv

/-- Candidate paper from arXiv (`ArxivPaper` in the source): the ranking code
reads `summary` and mutates `score`. -/
structure ArxivPaper where
  summary : String
  title : String
  score : ℝ

/-- One Zotero corpus entry as used by `rerank_paper`: the code reads
`paper['data']['dateAdded']` and `paper['data']['abstractNote']`. -/
structure CorpusItem where
  dateAdded : String
  abstractNote : String
deriving DecidableEq

/-! ### Timestamp parsing (`datetime.strptime(x, '%Y-%m-%dT%H:%M:%SZ')`)

`strptime` is Python standard library (an external collaborator); we model the
fixed-width ISO form matched by that format string: four year digits, and
two-digit zero-padded month/day/hour/minute/second with range validation, the
literal separators `-`, `-`, `T`, `:`, `:` and a trailing `Z`, and nothing
after it.  A successful parse is encoded as a single natural key that orders
exactly like the parsed `datetime` (lexicographic on the six fields, each
bounded below 100). A malformed string yields `none`, which models the
`ValueError` raised by `strptime`. -/

/-- Value of a decimal digit character, `none` if not a digit. -/
def digitVal (c : Char) : Option ℕ :=
  if '0' ≤ c ∧ c ≤ '9' then some (c.toNat - 48) else none

/-- Parse exactly two decimal digits from the front of a character list. -/
def parse2 : List Char → Option (ℕ × List Char)
  | c1 :: c2 :: rest =>
    match digitVal c1, digitVal c2 with
    | some d1, some d2 => some (d1 * 10 + d2, rest)
    | _, _ => none
  | _ => none

/-- Parse exactly four decimal digits from the front of a character list. -/
def parse4 : List Char → Option (ℕ × List Char)
  | c1 :: c2 :: c3 :: c4 :: rest =>
    match digitVal c1, digitVal c2, digitVal c3, digitVal c4 with
    | some d1, some d2, some d3, some d4 =>
      some (((d1 * 10 + d2) * 10 + d3) * 10 + d4, rest)
    | _, _, _, _ => none
  | _ => none

/-- Consume one expected literal character. -/
def expectChar (ch : Char) : List Char → Option (List Char)
  | c :: rest => if c = ch then some rest else none
  | _ => none

/-- Model of `datetime.strptime(s, '%Y-%m-%dT%H:%M:%SZ')`, returning a numeric
key that is ordered like the parsed datetime; `none` models the `ValueError`
on malformed input. -/
def strptime (s : String) : Option ℕ := do
  let (y, cs) ← parse4 s.toList
  let cs ← expectChar '-' cs
  let (mo, cs) ← parse2 cs
  let cs ← expectChar '-' cs
  let (d, cs) ← parse2 cs
  let cs ← expectChar 'T' cs
  let (h, cs) ← parse2 cs
  let cs ← expectChar ':' cs
  let (mi, cs) ← parse2 cs
  let cs ← expectChar ':' cs
  let (sec, cs) ← parse2 cs
  let cs ← expectChar 'Z' cs
  if cs = [] ∧ 1 ≤ mo ∧ mo ≤ 12 ∧ 1 ≤ d ∧ d ≤ 31 ∧ h ≤ 23 ∧ mi ≤ 59 ∧ sec ≤ 61 then
    some (((((y * 100 + mo) * 100 + d) * 100 + h) * 100 + mi) * 100 + sec)
  else
    none

/-! ### Star rating (`src/utils.py`, `get_star_rating`) -/

/-- Python 3 `round` to the nearest integer, ties to even (banker's rounding),
on an exact rational. -/
def pyRound (q : ℚ) : ℤ :=
  if q - ⌊q⌋ < 1/2 then ⌊q⌋
  else if 1/2 < q - ⌊q⌋ then ⌊q⌋ + 1
  else if 2 ∣ ⌊q⌋ then ⌊q⌋ else ⌊q⌋ + 1

/-- Model of `get_star_rating` from `src/utils.py`: `mean = 4.5`, `half = 1`,
scores at or below `low = 3.5` get `0`, at or above `high = 5.5` get `5`, and
in between the score is linearly mapped to `[0,1]`, scaled by 5, rounded, and
clamped into `[1,5]`. -/
def get_star_rating (score : ℚ) : ℤ :=
  let mean : ℚ := 9/2
  let half : ℚ := 1
  let low := mean - half
  let high := mean + half
  if score ≤ low then 0
  else if score ≥ high then 5
  else max 1 (min 5 (pyRound ((score - low) / (high - low) * 5)))

/-! ### Embedding providers (`src/recommender.py`)

`LocalEmbeddingProvider` wraps an external sentence-transformer model and
`APIEmbeddingProvider` wraps an external HTTP endpoint; both backends are
modelled as oracles passed in as parameters.  A local `encode` oracle returns
`none` to model an exception raised by the model; a remote per-batch oracle
returns `none` to model a network/parsing failure of that call. -/

/-- The provider value produced by `get_embedding_provider`: either the local
variant holding its model name, or the API variant holding key, model name
and base URL. -/
inductive Provider where
  | localP (modelName : String)
  | apiP (apiKey : String) (modelName : String) (baseUrl : String)
deriving DecidableEq

/-- Python truthiness test `not s` for an optional string: `None` and the
empty string are falsy. -/
def pyFalsy : Option String → Bool
  | none => true
  | some s => s.isEmpty

/-- Environment variables read by `get_embedding_provider`
(`os.environ.get`); `none` models an unset variable. -/
structure Env where
  use_embedding_api : Option String
  embedding_api_key : Option String
  embedding_api_base : Option String
  embedding_model : Option String
  local_vectorization_model : Option String

/-- ASCII lower-casing of a string (Python `str.lower()` on the ASCII values
the selection logic compares against). -/
def strToLower (s : String) : String := String.mk (s.data.map Char.toLower)

/-- Resolution of the `use_api` flag against `USE_EMBEDDING_API`
(lower-cased membership tests of lines 132-138). -/
def resolveUseApi (env : Env) (use_api : Bool) : Bool :=
  let v := strToLower (env.use_embedding_api.getD "")
  if ["true", "1", "yes", "y"].contains v then true
  else if ["false", "0", "no", "n"].contains v then false
  else use_api

/-- Resolution of the API key (lines 141-144): when the API is in use and the
caller-supplied key is falsy, the key is taken from `EMBEDDING_API_KEY`. -/
def resolveApiKey (env : Env) (use_api : Bool) (api_key : Option String) : Option String :=
  if use_api && pyFalsy api_key then env.embedding_api_key else api_key

/-- The `if env_value:` override pattern of lines 147-162: a set, non-empty
environment value replaces the caller-supplied one. -/
def resolveEnvStr (envVal : Option String) (fallback : String) : String :=
  match envVal with
  | some s => if s.isEmpty then fallback else s
  | none => fallback

/-- Model of `get_embedding_provider` (lines 123-176).  The
`APIEmbeddingProvider` constructor raises only for a falsy key, which is
unreachable here because the falsy-key case already fell back to the local
provider, so the `try/except` around it never fires in the model. -/
def get_embedding_provider (env : Env) (use_api : Bool) (api_key : Option String)
    (api_base api_model local_model : String) : Provider :=
  let ua := resolveUseApi env use_api
  let key := resolveApiKey env ua api_key
  let base := resolveEnvStr env.embedding_api_base api_base
  let model := resolveEnvStr env.embedding_model api_model
  let lm := resolveEnvStr env.local_vectorization_model local_model
  if ua then
    if pyFalsy key then Provider.localP lm
    else Provider.apiP (key.getD "") model base
  else Provider.localP lm

/-! ### Remote batched encoding (`APIEmbeddingProvider.encode`, lines 91-120) -/

/-- Fuel-indexed batching helper; the fuel only bounds the recursion depth
(one unit per batch is always enough once fuel dominates the list length), so
the `0`-fuel case is unreachable from `chunk20`. -/
def chunk20Fuel {α : Type} : ℕ → List α → List (List α)
  | _, [] => []
  | 0, _ => []
  | fuel + 1, x :: xs => (x :: xs.take 19) :: chunk20Fuel fuel (xs.drop 19)

/-- Split a list into consecutive batches of 20 (`texts[i:i+batch_size]` with
`batch_size = 20`). -/
def chunk20 {α : Type} (l : List α) : List (List α) := chunk20Fuel l.length l

/-- Run the per-batch remote call over all batches, concatenating the
returned embeddings; `none` as soon as any batch call fails. -/
def goBatches (call : List String → Option (List (List ℝ))) :
    List (List String) → Option (List (List ℝ))
  | [] => some []
  | b :: bs =>
    match call b with
    | none => none
    | some e =>
      match goBatches call bs with
      | none => none
      | some rest => some (e ++ rest)

/-- Model of `APIEmbeddingProvider.encode`: batches of 20 are sent in order;
on the first failing batch the function returns
`np.zeros((len(texts), 1024))`, i.e. a zero vector for every input text,
discarding embeddings already obtained from earlier batches. -/
def encodeAPI (call : List String → Option (List (List ℝ))) (texts : List String) :
    List (List ℝ) :=
  match goBatches call (chunk20 texts) with
  | some embs => embs
  | none => List.replicate texts.length (List.replicate 1024 (0 : ℝ))

/-- Shared encode dispatch: the local variant consults the local model oracle
(which may raise, i.e. return `none`); the API variant never raises because
`encode` catches every exception internally. -/
def providerEncode (localO : String → List String → Option (List (List ℝ)))
    (apiO : String → String → String → List String → Option (List (List ℝ))) :
    Provider → List String → Option (List (List ℝ))
  | Provider.localP m, texts => localO m texts
  | Provider.apiP k m b, texts => some (encodeAPI (apiO k m b) texts)

/-! ### Similarity engine (`EmbeddingProvider.similarity`, lines 22-46) -/

/-- Dot product of two rows (`np.dot` of equal-length vectors). -/
def dotList (a b : List ℝ) : ℝ := (List.zipWith (fun x y => x * y) a b).sum

/-- Row L2 norm, `np.linalg.norm(v)`. -/
noncomputable def l2norm (v : List ℝ) : ℝ :=
  Real.sqrt ((v.map (fun x => x * x)).sum)

/-- `np.where(norm == 0, 1e-10, norm)`: a zero norm is replaced by `1e-10`. -/
noncomputable def safeNorm (v : List ℝ) : ℝ :=
  if l2norm v = 0 then 1e-10 else l2norm v

/-- Row normalisation `v / safeNorm v`. -/
noncomputable def normalizeRow (v : List ℝ) : List ℝ :=
  v.map (fun x => x / safeNorm v)

/-- Model of `EmbeddingProvider.similarity`: normalise all rows of both
matrices, then entry `(i, j)` is the dot product of normalised row `i` of `A`
with normalised row `j` of `B`. -/
noncomputable def similarityM (A B : List (List ℝ)) : List (List ℝ) :=
  A.map (fun a => B.map (fun b => dotList (normalizeRow a) (normalizeRow b)))

/-! ### Recency weights (`rerank_paper`, lines 219-221) -/

/-- Unnormalised recency weight `1 / (1 + np.log10(r + 1))` at rank `r`. -/
noncomputable def timeDecayRaw (r : ℕ) : ℝ :=
  1 / (1 + Real.logb 10 ((r : ℝ) + 1))

/-- Normalised recency weight at rank `r` for a corpus of length `N`. -/
noncomputable def timeDecayNorm (N : ℕ) (r : ℕ) : ℝ :=
  timeDecayRaw r / ∑ k ∈ Finset.range N, timeDecayRaw k

/-- The weight vector `time_decay_weight` as a list over ranks `0..N-1`. -/
noncomputable def weightList (N : ℕ) : List ℝ :=
  (List.range N).map (timeDecayNorm N)

/-! ### Ranking orchestrator (`rerank_paper`, lines 179-249) -/

/-- Sort key of a corpus item: its parsed timestamp.  Only used after every
timestamp in the corpus has been checked to parse, so the default is never
reached on the success path. -/
def corpusKey (it : CorpusItem) : ℕ := (strptime it.dateAdded).getD 0

/-- Python `sorted(corpus, key=parsed date, reverse=True)`: stable descending
sort by the parsed timestamp. -/
def sortCorpus (corpus : List CorpusItem) : List CorpusItem :=
  corpus.mergeSort (fun a b => decide (corpusKey b ≤ corpusKey a))

/-- Per-candidate scores `(sim * time_decay_weight).sum(axis=1) * 10`. -/
noncomputable def computeScores (sim : List (List ℝ)) (w : List ℝ) : List ℝ :=
  sim.map (fun row => dotList row w * 10)

/-- The score-assignment loop `for s, c in zip(scores, candidate)`: the first
`min` papers get the new scores, papers beyond the score list keep their old
score. -/
def assignScores (cands : List ArxivPaper) (scores : List ℝ) : List ArxivPaper :=
  (List.zipWith (fun c s => { c with score := s }) cands scores) ++ cands.drop scores.length

/-- Python `sorted(candidate, key=lambda x: x.score, reverse=True)`: stable
descending sort by score. -/
noncomputable def sortByScoreDesc (l : List ArxivPaper) : List ArxivPaper :=
  l.mergeSort (fun a b => decide (b.score ≤ a.score))

/-- Errors that can escape the body of the `try` block of `rerank_paper`:
the `ValueError` from a malformed `dateAdded` during the corpus sort, or an
exception escaping a local-model `encode` call. -/
inductive RerankErr where
  | badDate : RerankErr
  | encodeFail : RerankErr
deriving DecidableEq

/-- Body of the `try` block of `rerank_paper` (lines 207-242): obtain the
provider, sort the corpus by recency (raising on a malformed timestamp, since
Python `sorted` evaluates every key), compute the recency weights, encode the
sorted corpus abstracts and then the candidate summaries, compute the
similarity matrix and scores, assign scores to the candidates and stably sort
them by score descending. -/
noncomputable def rerankCore (env : Env)
    (localO : String → List String → Option (List (List ℝ)))
    (apiO : String → String → String → List String → Option (List (List ℝ)))
    (candidate : List ArxivPaper) (corpus : List CorpusItem)
    (use_api : Bool) (api_key : Option String)
    (api_base api_model local_model : String) :
    Except RerankErr (List ArxivPaper) :=
  match corpus.mapM (fun it => strptime it.dateAdded) with
  | none => Except.error RerankErr.badDate
  | some _ =>
    match providerEncode localO apiO
        (get_embedding_provider env use_api api_key api_base api_model local_model)
        ((sortCorpus corpus).map (fun p => p.abstractNote)) with
    | none => Except.error RerankErr.encodeFail
    | some corpusF =>
      match providerEncode localO apiO
          (get_embedding_provider env use_api api_key api_base api_model local_model)
          (candidate.map (fun p => p.summary)) with
      | none => Except.error RerankErr.encodeFail
      | some candF =>
        Except.ok (sortByScoreDesc (assignScores candidate
          (computeScores (similarityM candF corpusF)
            (weightList (sortCorpus corpus).length))))

/-- Model of `rerank_paper`: the `try` body, with the catch-all `except`
(lines 244-249) that zeroes every candidate's score and returns the
candidates in their original order.  The function is total: no error escapes
to the caller. -/
noncomputable def rerank_paper (env : Env)
    (localO : String → List String → Option (List (List ℝ)))
    (apiO : String → String → String → List String → Option (List (List ℝ)))
    (candidate : List ArxivPaper) (corpus : List CorpusItem)
    (use_api : Bool) (api_key : Option String)
    (api_base api_model local_model : String) :
    List ArxivPaper :=
  match rerankCore env localO apiO candidate corpus use_api api_key api_base api_model local_model with
  | Except.ok r => r
  | Except.error _ => candidate.map (fun c => { c with score := 0 })

/-! ### Concrete instances used by witnesses and counterexamples -/

/-- A remote-call oracle that succeeds on full batches of 20 and fails on the
final short batch. -/
def callEx : List String → Option (List (List ℝ)) :=
  fun b => if b.length = 20 then some (List.replicate 20 [(1 : ℝ)]) else none

/-- Twenty-one texts: one full batch of 20 plus one short batch. -/
def textsEx : List String := List.replicate 21 "t"

/-- A corpus item with a malformed `dateAdded`. -/
def badCorpusItem : CorpusItem := { dateAdded := "not-a-date", abstractNote := "some abstract" }

/-- A corpus item with a well-formed `dateAdded`. -/
def goodItem : CorpusItem := { dateAdded := "2024-01-02T03:04:05Z", abstractNote := "abstract" }

/-- A concrete candidate paper. -/
def candEx : ArxivPaper := { summary := "summary text", title := "Title", score := 5 }

/-- An environment with no variables set. -/
def envEx : Env := ⟨none, none, none, none, none⟩

/-- A local encode oracle that returns the embedding `[1]` for every text. -/
def localOEx : String → List String → Option (List (List ℝ)) :=
  fun _ texts => some (texts.map (fun _ => [(1 : ℝ)]))

/-- A local encode oracle that always raises. -/
def localOFail : String → List String → Option (List (List ℝ)) := fun _ _ => none

/-- A remote per-batch oracle whose every call fails. -/
def apiOEx : String → String → String → List String → Option (List (List ℝ)) :=
  fun _ _ _ _ => none

/-! ### Supporting lemmas for the star rating -/

lemma pyRound_lb (q : ℚ) : ⌊q⌋ ≤ pyRound q := by
  unfold pyRound; split_ifs <;> omega

lemma pyRound_ub (q : ℚ) : pyRound q ≤ ⌊q⌋ + 1 := by
  unfold pyRound; split_ifs <;> omega

lemma pyRound_mono {x y : ℚ} (h : x ≤ y) : pyRound x ≤ pyRound y := by
  rcases lt_or_eq_of_le (Int.floor_le_floor h) with hf | hf
  · calc pyRound x ≤ ⌊x⌋ + 1 := pyRound_ub x
      _ ≤ ⌊y⌋ := by omega
      _ ≤ pyRound y := pyRound_lb y
  · unfold pyRound
    rw [hf]
    have hb : (⌊y⌋ : ℚ) = (⌊y⌋ : ℚ) := rfl
    split_ifs with h1 h2 h3 h4 h5 h6 h7 h8 <;> try omega
    all_goals (exfalso; linarith)

lemma star_nonneg (s : ℚ) : 0 ≤ get_star_rating s := by
  simp only [get_star_rating]
  split_ifs with h1 h2
  · exact le_refl 0
  · norm_num
  · exact le_trans zero_le_one (le_max_left _ _)

lemma star_le_five (s : ℚ) : get_star_rating s ≤ 5 := by
  simp only [get_star_rating]
  split_ifs with h1 h2
  · norm_num
  · exact le_refl 5
  · exact max_le (by norm_num) (min_le_left _ _)

lemma star_mono {s t : ℚ} (h : s ≤ t) : get_star_rating s ≤ get_star_rating t := by
  by_cases h1 : s ≤ 9/2 - 1
  · have hs : get_star_rating s = 0 := by
      simp only [get_star_rating]; rw [if_pos h1]
    rw [hs]; exact star_nonneg t
  · by_cases h2 : t ≥ 9/2 + 1
    · have ht : get_star_rating t = 5 := by
        simp only [get_star_rating]
        rw [if_neg (by intro hc; linarith), if_pos h2]
      rw [ht]; exact star_le_five s
    · have hs2 : ¬ s ≥ 9/2 + 1 := by intro hc; exact h2 (by linarith)
      have ht1 : ¬ t ≤ 9/2 - 1 := by intro hc; exact h1 (by linarith)
      simp only [get_star_rating]
      rw [if_neg h1, if_neg hs2, if_neg ht1, if_neg h2]
      refine max_le_max le_rfl (min_le_min le_rfl (pyRound_mono ?_))
      have harg : s - (9/2 - 1) ≤ t - (9/2 - 1) := by linarith
      linarith [harg]

/-- C10: for every score, `get_star_rating` returns an integer in `[0, 5]`;
it returns `0` exactly when the score is at most `3.5`, returns `5` whenever
the score is at least `5.5`, and is monotonically non-decreasing in the
score. -/
theorem C10_star_rating (s t : ℚ) (hst : s ≤ t) :
    (0 ≤ get_star_rating s ∧ get_star_rating s ≤ 5) ∧
    (get_star_rating s = 0 ↔ s ≤ 7/2) ∧
    (11/2 ≤ s → get_star_rating s = 5) ∧
    get_star_rating s ≤ get_star_rating t := by
  refine ⟨⟨star_nonneg s, star_le_five s⟩, ?_, ?_, star_mono hst⟩
  · constructor
    · intro h0
      by_contra hs
      push_neg at hs
      have : get_star_rating s ≠ 0 := by
        simp only [get_star_rating]
        split_ifs with h1 h2
        · exfalso; linarith
        · norm_num
        · have h3 : (1:ℤ) ≤ max 1 (min 5 (pyRound ((s - (9/2 - 1)) / (9/2 + 1 - (9/2 - 1)) * 5))) :=
            le_max_left _ _
          omega
      exact this h0
    · intro hs
      simp only [get_star_rating]
      rw [if_pos (by linarith : s ≤ 9/2 - 1)]
  · intro hs
    simp only [get_star_rating]
    rw [if_neg (by intro h; linarith : ¬ s ≤ 9/2 - 1),
      if_pos (by change 9/2 + 1 ≤ s; linarith : s ≥ 9/2 + 1)]

/-- Witness for C10 at scores `4` and `6`. -/
theorem C10_star_rating_witness :
    (0 ≤ get_star_rating 4 ∧ get_star_rating 4 ≤ 5) ∧
    (get_star_rating 4 = 0 ↔ (4:ℚ) ≤ 7/2) ∧
    ((11:ℚ)/2 ≤ 4 → get_star_rating 4 = 5) ∧
    get_star_rating 4 ≤ get_star_rating 6 :=
  C10_star_rating 4 6 (by norm_num)

/-! ### C5: remote batch failure semantics -/

lemma goBatches_none_of_mem (call : List String → Option (List (List ℝ)))
    (bs : List (List String)) (hb : ∃ b ∈ bs, call b = none) :
    goBatches call bs = none := by
  induction bs with
  | nil => simp at hb
  | cons b bs ih =>
    obtain ⟨b2, hmem, hfail⟩ := hb
    rcases List.mem_cons.mp hmem with rfl | hmem2
    · simp [goBatches, hfail]
    · cases hcall : call b with
      | none => simp [goBatches, hcall]
      | some e => simp [goBatches, hcall, ih ⟨b2, hmem2, hfail⟩]

/-- C5 counterexample: with 21 texts, the first batch of 20 succeeds and the
final batch fails, yet `encode` returns a zero vector for ALL 21 texts — the
embeddings already obtained for the successful first batch are discarded, so
the degradation is not localized to the failed batch. -/
theorem C5_counterexample :
    callEx (List.replicate 20 "t") = some (List.replicate 20 [(1 : ℝ)]) ∧
    chunk20 textsEx = [List.replicate 20 "t", ["t"]] ∧
    callEx ["t"] = none ∧
    encodeAPI callEx textsEx = List.replicate 21 (List.replicate 1024 (0 : ℝ)) ∧
    (encodeAPI callEx textsEx).getD 0 [] ≠ [(1 : ℝ)] := by
  have h4 : encodeAPI callEx textsEx = List.replicate 21 (List.replicate 1024 (0 : ℝ)) := rfl
  refine ⟨rfl, rfl, rfl, h4, ?_⟩
  rw [h4]
  have h5 : (List.replicate 21 (List.replicate 1024 (0 : ℝ))).getD 0 []
      = List.replicate 1024 (0 : ℝ) := rfl
  rw [h5]
  intro hcontra
  have hlen := congrArg List.length hcontra
  rw [List.length_replicate] at hlen
  norm_num at hlen

/-- C5 amended: when any remote batch call fails, `encode` does not raise and
returns a `len(texts) × 1024` all-zero matrix — zero vectors are substituted
for ALL texts, including those of previously successful batches, not only for
the failed batch. -/
theorem C5_amended_zeroes_all (call : List String → Option (List (List ℝ)))
    (texts : List String) (hfail : ∃ b ∈ chunk20 texts, call b = none) :
    encodeAPI call texts = List.replicate texts.length (List.replicate 1024 (0 : ℝ)) := by
  unfold encodeAPI
  rw [goBatches_none_of_mem call _ hfail]

/-- Witness for the amended C5 at the concrete failing instance. -/
theorem C5_amended_witness :
    encodeAPI callEx textsEx = List.replicate textsEx.length (List.replicate 1024 (0 : ℝ)) :=
  C5_amended_zeroes_all callEx textsEx
    ⟨["t"], by show ["t"] ∈ [List.replicate 20 "t", ["t"]]; simp, rfl⟩

/-! ### C2 and C3: orchestrator error handling -/

lemma rerank_of_core_error (env : Env)
    (localO : String → List String → Option (List (List ℝ)))
    (apiO : String → String → String → List String → Option (List (List ℝ)))
    (cand : List ArxivPaper) (corpus : List CorpusItem)
    (ua : Bool) (key : Option String) (b m lm : String) (e : RerankErr)
    (h : rerankCore env localO apiO cand corpus ua key b m lm = Except.error e) :
    rerank_paper env localO apiO cand corpus ua key b m lm
      = cand.map (fun c => { c with score := 0 }) := by
  unfold rerank_paper
  rw [h]

/-- C2 counterexample: with a malformed `dateAdded` in the reference corpus,
the parsing error raised inside the `try` body is NOT propagated to the
caller: `rerank_paper` returns the degraded zero-score result in input
order. -/
theorem C2_counterexample :
    rerankCore envEx localOEx apiOEx [candEx] [badCorpusItem] false none "b" "m" "lm"
      = Except.error RerankErr.badDate ∧
    rerank_paper envEx localOEx apiOEx [candEx] [badCorpusItem] false none "b" "m" "lm"
      = [{ candEx with score := 0 }] :=
  ⟨rfl, rfl⟩

/-- C2 amended: a malformed `added_at` timestamp makes the corpus sort raise,
but the error is caught by the orchestrator's catch-all `except`:
`rerank_paper` swallows it and returns every candidate with score `0.0` in
the original input order, rather than surfacing the error. -/
theorem C2_amended_swallowed (env : Env)
    (localO : String → List String → Option (List (List ℝ)))
    (apiO : String → String → String → List String → Option (List (List ℝ)))
    (cand : List ArxivPaper) (corpus : List CorpusItem)
    (ua : Bool) (key : Option String) (b m lm : String)
    (h : corpus.mapM (fun it => strptime it.dateAdded) = none) :
    rerankCore env localO apiO cand corpus ua key b m lm = Except.error RerankErr.badDate ∧
    rerank_paper env localO apiO cand corpus ua key b m lm
      = cand.map (fun c => { c with score := 0 }) := by
  have hcore : rerankCore env localO apiO cand corpus ua key b m lm
      = Except.error RerankErr.badDate := by
    unfold rerankCore
    rw [h]
  exact ⟨hcore, rerank_of_core_error env localO apiO cand corpus ua key b m lm _ hcore⟩

/-- Witness for the amended C2 at a concrete malformed timestamp. -/
theorem C2_amended_witness :
    rerankCore envEx localOEx apiOEx [candEx] [{ dateAdded := "2024-99-99", abstractNote := "x" }]
      false none "b" "m" "lm" = Except.error RerankErr.badDate ∧
    rerank_paper envEx localOEx apiOEx [candEx] [{ dateAdded := "2024-99-99", abstractNote := "x" }]
      false none "b" "m" "lm" = List.map (fun c => { c with score := 0 }) [candEx] :=
  C2_amended_swallowed envEx localOEx apiOEx [candEx]
    [{ dateAdded := "2024-99-99", abstractNote := "x" }] false none "b" "m" "lm" rfl

/-- C3: if any error escapes the `try` body (provider acquisition, encoding,
similarity or score computation), `rerank_paper` catches it, assigns every
candidate a score of exactly `0.0`, returns the candidates in their original
input order, and does not raise (it is a total function returning this
degraded list). -/
theorem C3_catch_all (env : Env)
    (localO : String → List String → Option (List (List ℝ)))
    (apiO : String → String → String → List String → Option (List (List ℝ)))
    (cand : List ArxivPaper) (corpus : List CorpusItem)
    (ua : Bool) (key : Option String) (b m lm : String) (e : RerankErr)
    (h : rerankCore env localO apiO cand corpus ua key b m lm = Except.error e) :
    rerank_paper env localO apiO cand corpus ua key b m lm
      = cand.map (fun c => { c with score := 0 }) ∧
    (∀ c ∈ rerank_paper env localO apiO cand corpus ua key b m lm, c.score = 0) ∧
    (rerank_paper env localO apiO cand corpus ua key b m lm).map (fun c => c.summary)
      = cand.map (fun c => c.summary) := by
  have h1 := rerank_of_core_error env localO apiO cand corpus ua key b m lm e h
  refine ⟨h1, ?_, ?_⟩
  · intro c hc
    rw [h1] at hc
    obtain ⟨c0, _, rfl⟩ := List.mem_map.mp hc
    rfl
  · rw [h1, List.map_map]
    rfl

/-- Witness for C3: a local-model `encode` failure is caught and degrades to
zero scores on the concrete inputs. -/
theorem C3_catch_all_witness :
    rerank_paper envEx localOFail apiOEx [candEx] [goodItem] false none "b" "m" "lm"
      = List.map (fun c => { c with score := 0 }) [candEx] ∧
    (∀ c ∈ rerank_paper envEx localOFail apiOEx [candEx] [goodItem] false none "b" "m" "lm",
      c.score = 0) ∧
    (rerank_paper envEx localOFail apiOEx [candEx] [goodItem] false none "b" "m" "lm").map
        (fun c => c.summary)
      = List.map (fun c => c.summary) [candEx] :=
  C3_catch_all envEx localOFail apiOEx [candEx] [goodItem] false none "b" "m" "lm"
    RerankErr.encodeFail rfl

/-! ### C4: recency weight vector -/

lemma timeDecayRaw_pos (r : ℕ) : 0 < timeDecayRaw r := by
  unfold timeDecayRaw
  have h0 : (0 : ℝ) ≤ Real.logb 10 ((r : ℝ) + 1) :=
    Real.logb_nonneg (by norm_num) (by have h0 : (0 : ℝ) ≤ (r : ℝ) := Nat.cast_nonneg r; linarith)
  exact div_pos one_pos (by linarith)

lemma timeDecayRaw_antitone {r1 r2 : ℕ} (h : r1 ≤ r2) : timeDecayRaw r2 ≤ timeDecayRaw r1 := by
  unfold timeDecayRaw
  have h1 : (0 : ℝ) < (r1 : ℝ) + 1 := by positivity
  have hle : ((r1 : ℝ) + 1) ≤ ((r2 : ℝ) + 1) := by
    have : (r1 : ℝ) ≤ (r2 : ℝ) := Nat.cast_le.mpr h
    linarith
  have hlog : Real.logb 10 ((r1 : ℝ) + 1) ≤ Real.logb 10 ((r2 : ℝ) + 1) :=
    Real.logb_le_logb_of_le (by norm_num) h1 hle
  have hd1 : (0 : ℝ) < 1 + Real.logb 10 ((r1 : ℝ) + 1) := by
    have h0 : (0 : ℝ) ≤ Real.logb 10 ((r1 : ℝ) + 1) :=
      Real.logb_nonneg (by norm_num) (by have h0 : (0 : ℝ) ≤ (r1 : ℝ) := Nat.cast_nonneg r1; linarith)
    linarith
  exact one_div_le_one_div_of_le hd1 (by linarith)

lemma sumRaw_pos (N : ℕ) (hN : 1 ≤ N) : 0 < ∑ k ∈ Finset.range N, timeDecayRaw k :=
  Finset.sum_pos (fun i _ => timeDecayRaw_pos i) (Finset.nonempty_range_iff.mpr (by omega))

lemma listSum_map_range (f : ℕ → ℝ) (n : ℕ) :
    ((List.range n).map f).sum = ∑ k ∈ Finset.range n, f k := by
  induction n with
  | zero => simp
  | succ n ih =>
    rw [List.range_succ, List.map_append, List.sum_append, Finset.sum_range_succ, ih]
    simp

lemma weightList_getD {N r : ℕ} (hr : r < N) :
    (weightList N).getD r 0 = timeDecayNorm N r := by
  unfold weightList
  rw [List.getD_eq_getElem?_getD, List.getElem?_map, List.getElem?_range hr]
  rfl

/-- C4: for a corpus of length `N ≥ 1`, the weight at rank `r` equals
`(1/(1+log10(r+1)))` divided by the sum of those terms over all ranks;
consequently every entry is non-negative, the entries sum to `1`, and the
entries are monotonically non-increasing in the rank. -/
theorem C4_weights (N r : ℕ) (hN : 1 ≤ N) (hr : r < N) :
    (weightList N).getD r 0
      = (1 / (1 + Real.logb 10 ((r : ℝ) + 1)))
        / ∑ k ∈ Finset.range N, (1 / (1 + Real.logb 10 ((k : ℝ) + 1))) ∧
    0 ≤ (weightList N).getD r 0 ∧
    (weightList N).sum = 1 ∧
    (∀ r2, r ≤ r2 → timeDecayNorm N r2 ≤ timeDecayNorm N r) := by
  have hS := sumRaw_pos N hN
  refine ⟨?_, ?_, ?_, ?_⟩
  · rw [weightList_getD hr]
    rfl
  · rw [weightList_getD hr]
    exact div_nonneg (le_of_lt (timeDecayRaw_pos r)) (le_of_lt hS)
  · unfold weightList
    rw [listSum_map_range]
    unfold timeDecayNorm
    rw [← Finset.sum_div, div_self (ne_of_gt hS)]
  · intro r2 h2
    unfold timeDecayNorm
    exact (div_le_div_iff_of_pos_right hS).mpr (timeDecayRaw_antitone h2)

/-- Witness for C4 at `N = 2`, `r = 0`. -/
theorem C4_weights_witness :
    (weightList 2).getD 0 0
      = (1 / (1 + Real.logb 10 ((0 : ℕ) + 1)))
        / ∑ k ∈ Finset.range 2, (1 / (1 + Real.logb 10 ((k : ℝ) + 1))) ∧
    0 ≤ (weightList 2).getD 0 0 ∧
    (weightList 2).sum = 1 ∧
    (∀ r2, 0 ≤ r2 → timeDecayNorm 2 r2 ≤ timeDecayNorm 2 0) := by
  have h := C4_weights 2 0 (by norm_num) (by norm_num)
  simpa using h

/-! ### C9: similarity is total, with epsilon-guarded zero rows -/

lemma sum_sq_nonneg (v : List ℝ) : 0 ≤ (v.map (fun x => x * x)).sum := by
  apply List.sum_nonneg
  intro x hx
  obtain ⟨y, _, rfl⟩ := List.mem_map.mp hx
  exact mul_self_nonneg y

lemma all_zero_of_l2norm_zero {v : List ℝ} (h : l2norm v = 0) : ∀ x ∈ v, x = 0 := by
  have hsq : (v.map (fun x => x * x)).sum = 0 := by
    have h0 := sum_sq_nonneg v
    have h1 : (v.map (fun x => x * x)).sum ≤ 0 := Real.sqrt_eq_zero'.mp h
    linarith
  clear h
  induction v with
  | nil => simp
  | cons a t ih =>
    simp only [List.map_cons, List.sum_cons] at hsq
    have h1 : 0 ≤ a * a := mul_self_nonneg a
    have h2 : 0 ≤ (t.map (fun x => x * x)).sum := sum_sq_nonneg t
    have ha : a * a = 0 := by linarith
    have ht : (t.map (fun x => x * x)).sum = 0 := by linarith
    intro x hx
    rcases List.mem_cons.mp hx with rfl | hx2
    · exact mul_self_eq_zero.mp ha
    · exact ih ht x hx2

lemma dotList_zero_left : ∀ (a b : List ℝ), (∀ x ∈ a, x = 0) → dotList a b = 0
  | [], _, _ => by simp [dotList]
  | _ :: _, [], _ => by simp [dotList]
  | x :: xs, y :: ys, h => by
    have hx : x = 0 := h x (by simp)
    have ih := dotList_zero_left xs ys (fun z hz => h z (by simp [hz]))
    simp only [dotList, List.zipWith_cons_cons, List.sum_cons] at ih ⊢
    rw [hx, zero_mul, zero_add]
    exact ih

lemma normalizeRow_zero {a : List ℝ} (h : ∀ x ∈ a, x = 0) :
    ∀ x ∈ normalizeRow a, x = 0 := by
  intro x hx
  obtain ⟨y, hy, rfl⟩ := List.mem_map.mp hx
  rw [h y hy, zero_div]

/-- C9: the similarity computation is total and never divides by zero: every
adjusted row norm is strictly positive, a zero-norm row gets the adjusted
norm `1e-10`, and such a row has similarity exactly `0` with every row of the
other matrix. -/
theorem C9_similarity_safe (A B : List (List ℝ)) (i : ℕ) (hi : i < A.length)
    (hz : l2norm (A.getD i []) = 0) :
    (∀ v : List ℝ, 0 < safeNorm v) ∧
    safeNorm (A.getD i []) = 1e-10 ∧
    (∀ j, j < B.length → ((similarityM A B).getD i []).getD j 1 = 0) := by
  refine ⟨?_, ?_, ?_⟩
  · intro v
    unfold safeNorm
    split_ifs with h
    · norm_num
    · exact lt_of_le_of_ne (Real.sqrt_nonneg _) (Ne.symm h)
  · unfold safeNorm
    rw [if_pos hz]
  · intro j hj
    unfold similarityM
    simp only [List.getD_eq_getElem?_getD, List.getElem?_map, List.getElem?_eq_getElem hi,
      List.getElem?_eq_getElem hj, Option.map_some', Option.getD_some] at hz ⊢
    exact dotList_zero_left _ _ (normalizeRow_zero (all_zero_of_l2norm_zero hz))

/-- Witness for C9 with a zero row against a non-zero row. -/
theorem C9_similarity_safe_witness :
    (∀ v : List ℝ, 0 < safeNorm v) ∧
    safeNorm ([[(0 : ℝ), 0]].getD 0 []) = 1e-10 ∧
    (∀ j, j < [[(1 : ℝ), 2]].length →
      ((similarityM [[(0 : ℝ), 0]] [[(1 : ℝ), 2]]).getD 0 []).getD j 1 = 0) :=
  C9_similarity_safe [[(0 : ℝ), 0]] [[(1 : ℝ), 2]] 0 (by norm_num)
    (by simp [l2norm])

/-! ### C7: descending stable sort of candidates -/

lemma scoreLe_trans (a b c : ArxivPaper)
    (h1 : (fun a b => decide (b.score ≤ a.score)) a b)
    (h2 : (fun a b => decide (b.score ≤ a.score)) b c) :
    (fun a b => decide (b.score ≤ a.score)) a c := by
  simp only [decide_eq_true_eq] at h1 h2 ⊢
  exact le_trans h2 h1

lemma scoreLe_total (a b : ArxivPaper) :
    ((fun a b => decide (b.score ≤ a.score)) a b
      || (fun a b => decide (b.score ≤ a.score)) b a) = true := by
  simp only [Bool.or_eq_true, decide_eq_true_eq]
  exact le_total b.score a.score

lemma pair_sublist_get {α : Type} :
    ∀ (l : List α) (i j : ℕ) (hi : i < l.length) (hj : j < l.length), i < j →
      List.Sublist [l.get ⟨i, hi⟩, l.get ⟨j, hj⟩] l
  | [], i, _, hi, _, _ => absurd hi (by simp)
  | _ :: _, _, 0, _, _, hij => absurd hij (by omega)
  | x :: xs, 0, j + 1, hi, hj, _ => by
    simp only [List.get]
    exact List.Sublist.cons₂ x (List.singleton_sublist.mpr (xs.get_mem _ _))
  | x :: xs, i + 1, j + 1, hi, hj, hij => by
    simp only [List.get]
    exact List.Sublist.cons x
      (pair_sublist_get xs i j (by simpa using hi) (by simpa using hj) (by omega))

/-- C7: the candidate sort orders by score descending (the output is pairwise
non-increasing in score) and breaks ties stably: two candidates at input
positions `i < j` with equal scores appear in the output with the position-`i`
candidate still before the position-`j` one. -/
theorem C7_stable_sort (l : List ArxivPaper) (i j : ℕ) (hi : i < l.length)
    (hj : j < l.length) (hij : i < j)
    (heq : (l.get ⟨i, hi⟩).score = (l.get ⟨j, hj⟩).score) :
    (sortByScoreDesc l).Pairwise (fun a b => b.score ≤ a.score) ∧
    List.Sublist [l.get ⟨i, hi⟩, l.get ⟨j, hj⟩] (sortByScoreDesc l) := by
  constructor
  · have h := List.sorted_mergeSort scoreLe_trans scoreLe_total l
    exact h.imp (fun hab => by simpa using hab)
  · exact List.pair_sublist_mergeSort scoreLe_trans scoreLe_total
      (by simp only [decide_eq_true_eq]; exact le_of_eq heq.symm)
      (pair_sublist_get l i j hi hj hij)

/-- Witness for C7 on two equal-scored candidates. -/
theorem C7_stable_sort_witness :
    (sortByScoreDesc [{ summary := "a", title := "A", score := (1 : ℝ) },
        { summary := "b", title := "B", score := (1 : ℝ) }]).Pairwise
      (fun a b => b.score ≤ a.score) ∧
    List.Sublist [([{ summary := "a", title := "A", score := (1 : ℝ) },
        { summary := "b", title := "B", score := (1 : ℝ) }] : List ArxivPaper).get ⟨0, by norm_num⟩,
      ([{ summary := "a", title := "A", score := (1 : ℝ) },
        { summary := "b", title := "B", score := (1 : ℝ) }] : List ArxivPaper).get ⟨1, by norm_num⟩]
      (sortByScoreDesc [{ summary := "a", title := "A", score := (1 : ℝ) },
        { summary := "b", title := "B", score := (1 : ℝ) }]) :=
  C7_stable_sort _ 0 1 (by norm_num) (by norm_num) (by norm_num) rfl

/-! ### Helper lemmas for the success path of the orchestrator -/

lemma rerankCore_success (env : Env)
    (localO : String → List String → Option (List (List ℝ)))
    (apiO : String → String → String → List String → Option (List (List ℝ)))
    (cands : List ArxivPaper) (corpus : List CorpusItem)
    (ua : Bool) (key : Option String) (b m lm : String)
    (ks : List ℕ) (corpusF candF : List (List ℝ))
    (hdates : corpus.mapM (fun it => strptime it.dateAdded) = some ks)
    (hcorp : providerEncode localO apiO (get_embedding_provider env ua key b m lm)
      ((sortCorpus corpus).map (fun p => p.abstractNote)) = some corpusF)
    (hcand : providerEncode localO apiO (get_embedding_provider env ua key b m lm)
      (cands.map (fun p => p.summary)) = some candF) :
    rerankCore env localO apiO cands corpus ua key b m lm
      = Except.ok (sortByScoreDesc (assignScores cands
          (computeScores (similarityM candF corpusF)
            (weightList (sortCorpus corpus).length)))) := by
  unfold rerankCore
  rw [hdates, hcorp, hcand]

lemma dotList_eq_sum : ∀ (a b : List ℝ), a.length = b.length →
    dotList a b = ∑ j ∈ Finset.range a.length, a.getD j 0 * b.getD j 0
  | [], [], _ => by simp [dotList]
  | [], _ :: _, h => by simp at h
  | _ :: _, [], h => by simp at h
  | x :: xs, y :: ys, h => by
    have ih := dotList_eq_sum xs ys (by simpa using h)
    simp only [dotList, List.zipWith_cons_cons, List.sum_cons] at ih ⊢
    rw [List.length_cons, Finset.sum_range_succ']
    simp only [List.getD_cons_succ, List.getD_cons_zero]
    rw [← ih]
    ring

lemma computeScores_getD (sim : List (List ℝ)) (w : List ℝ) (i : ℕ) (hi : i < sim.length) :
    (computeScores sim w).getD i 0 = dotList (sim.getD i []) w * 10 := by
  unfold computeScores
  simp only [List.getD_eq_getElem?_getD, List.getElem?_map, List.getElem?_eq_getElem hi,
    Option.map_some', Option.getD_some]

lemma similarityM_getD (A B : List (List ℝ)) (i : ℕ) (hi : i < A.length) :
    (similarityM A B).getD i []
      = B.map (fun b => dotList (normalizeRow (A.getD i [])) (normalizeRow b)) := by
  unfold similarityM
  simp only [List.getD_eq_getElem?_getD, List.getElem?_map, List.getElem?_eq_getElem hi,
    Option.map_some', Option.getD_some]

lemma weightList_length (N : ℕ) : (weightList N).length = N := by
  simp [weightList]

lemma sortCorpus_length (corpus : List CorpusItem) :
    (sortCorpus corpus).length = corpus.length := by
  simp [sortCorpus]

lemma encodeAPI_all_fail (call : List String → Option (List (List ℝ)))
    (texts : List String) (hfail : ∀ batch, call batch = none) :
    encodeAPI call texts = List.replicate texts.length (List.replicate 1024 (0 : ℝ)) := by
  cases texts with
  | nil => rfl
  | cons t ts =>
    unfold encodeAPI
    have h1 : chunk20 (t :: ts) = (t :: ts.take 19) :: chunk20Fuel ts.length (ts.drop 19) := rfl
    rw [h1]
    have h2 : goBatches call ((t :: ts.take 19) :: chunk20Fuel ts.length (ts.drop 19)) = none := by
      unfold goBatches
      rw [hfail]
    rw [h2]

lemma sim_rows_zero (A B : List (List ℝ)) (h : ∀ row ∈ A, ∀ x ∈ row, x = 0) :
    ∀ row ∈ similarityM A B, ∀ x ∈ row, x = 0 := by
  intro row hrow x hx
  unfold similarityM at hrow
  obtain ⟨a, ha, rfl⟩ := List.mem_map.mp hrow
  obtain ⟨b2, hb, rfl⟩ := List.mem_map.mp hx
  exact dotList_zero_left _ _ (normalizeRow_zero (h a ha))

lemma computeScores_all_zero (sim : List (List ℝ)) (w : List ℝ)
    (h : ∀ row ∈ sim, ∀ x ∈ row, x = 0) :
    computeScores sim w = List.replicate sim.length (0 : ℝ) := by
  unfold computeScores
  rw [show sim.length = (sim.map (fun row => dotList row w * 10)).length by simp]
  apply List.eq_replicate_of_mem
  intro s hs
  obtain ⟨row, hrow, rfl⟩ := List.mem_map.mp hs
  rw [dotList_zero_left _ _ (h row hrow), zero_mul]

lemma zipWith_update_replicate (c : ℝ) :
    ∀ cands : List ArxivPaper,
      List.zipWith (fun p s => { p with score := s }) cands (List.replicate cands.length c)
        = cands.map (fun p => { p with score := c })
  | [] => rfl
  | p :: ps => by
    simp only [List.length_cons, List.replicate_succ, List.zipWith_cons_cons, List.map_cons]
    rw [zipWith_update_replicate c ps]

lemma assignScores_replicate (cands : List ArxivPaper) (c : ℝ) :
    assignScores cands (List.replicate cands.length c)
      = cands.map (fun p => { p with score := c }) := by
  unfold assignScores
  rw [List.length_replicate, List.drop_length, List.append_nil]
  exact zipWith_update_replicate c cands

lemma pairwise_of_const_score (l : List ArxivPaper) (c : ℝ) (h : ∀ p ∈ l, p.score = c) :
    l.Pairwise (fun a b => decide (b.score ≤ a.score) = true) := by
  induction l with
  | nil => exact List.Pairwise.nil
  | cons p ps ih =>
    refine List.Pairwise.cons ?_ (ih (fun q hq => h q (List.mem_cons_of_mem _ hq)))
    intro q hq
    have hp : p.score = c := h p (List.mem_cons_self _ _)
    have hq2 : q.score = c := h q (List.mem_cons_of_mem _ hq)
    simp [hp, hq2]

lemma sortByScoreDesc_const (l : List ArxivPaper) (c : ℝ) (h : ∀ p ∈ l, p.score = c) :
    sortByScoreDesc l = l := by
  unfold sortByScoreDesc
  exact List.mergeSort_of_sorted (pairwise_of_const_score l c h)

lemma provider_local_of_falsy (env : Env) (ua : Bool) (key : Option String)
    (b m lm : String) (hk : pyFalsy key = true)
    (henv : pyFalsy env.embedding_api_key = true) :
    get_embedding_provider env ua key b m lm
      = Provider.localP (resolveEnvStr env.local_vectorization_model lm) := by
  unfold get_embedding_provider
  cases hua : resolveUseApi env ua with
  | false => simp [hua]
  | true => simp [hua, resolveApiKey, hk, henv]

/-! ### C8: missing API key falls back to the local provider -/

/-- C8: when the remote provider is selected but no API key is resolvable
(the caller-supplied key is falsy and `EMBEDDING_API_KEY` is falsy) and the
environment does not override the local model name, provider selection falls
back to the local provider with the given local model name, and the ranking
produced with the remote selection equals the ranking produced by explicitly
selecting the local provider with that same local model name on the same
inputs. -/
theorem C8_no_key_fallback (env : Env)
    (localO : String → List String → Option (List (List ℝ)))
    (apiO : String → String → String → List String → Option (List (List ℝ)))
    (cands : List ArxivPaper) (corpus : List CorpusItem)
    (api_key : Option String) (b m lm : String)
    (hk : pyFalsy api_key = true) (henv : pyFalsy env.embedding_api_key = true)
    (hlm : env.local_vectorization_model = none) :
    get_embedding_provider env true api_key b m lm = Provider.localP lm ∧
    rerank_paper env localO apiO cands corpus true api_key b m lm
      = rerank_paper env localO apiO cands corpus false api_key b m lm := by
  have h1 := provider_local_of_falsy env true api_key b m lm hk henv
  have h2 := provider_local_of_falsy env false api_key b m lm hk henv
  rw [hlm] at h1 h2
  constructor
  · exact h1
  · unfold rerank_paper rerankCore
    rw [h1, h2]

/-- Witness for C8 on concrete inputs with no key anywhere. -/
theorem C8_no_key_fallback_witness :
    get_embedding_provider envEx true none "b" "m" "lm" = Provider.localP "lm" ∧
    rerank_paper envEx localOEx apiOEx [candEx] [goodItem] true none "b" "m" "lm"
      = rerank_paper envEx localOEx apiOEx [candEx] [goodItem] false none "b" "m" "lm" :=
  C8_no_key_fallback envEx localOEx apiOEx [candEx] [goodItem] none "b" "m" "lm" rfl rfl rfl

/-! ### C6: every remote batch failing gives all-zero scores in input order -/

/-- C6: if provider selection resolves to the remote provider and every
remote batch call fails (so both embedding matrices consist entirely of zero
vectors), then every candidate's final score is exactly `0.0` and the output
candidate order equals the input order. -/
theorem C6_all_remote_fail (env : Env)
    (localO : String → List String → Option (List (List ℝ)))
    (apiO : String → String → String → List String → Option (List (List ℝ)))
    (cands : List ArxivPaper) (corpus : List CorpusItem)
    (ua : Bool) (key : Option String) (b m lm kk mm bb : String)
    (hprov : get_embedding_provider env ua key b m lm = Provider.apiP kk mm bb)
    (hfail : ∀ batch, apiO kk mm bb batch = none) :
    rerank_paper env localO apiO cands corpus ua key b m lm
      = cands.map (fun c => { c with score := 0 }) ∧
    (∀ c ∈ rerank_paper env localO apiO cands corpus ua key b m lm, c.score = 0) := by
  suffices hfinal : rerank_paper env localO apiO cands corpus ua key b m lm
      = cands.map (fun c => { c with score := 0 }) by
    refine ⟨hfinal, ?_⟩
    intro c hc
    rw [hfinal] at hc
    obtain ⟨c0, _, rfl⟩ := List.mem_map.mp hc
    rfl
  cases hdc : corpus.mapM (fun it => strptime it.dateAdded) with
  | none =>
    have hcore : rerankCore env localO apiO cands corpus ua key b m lm
        = Except.error RerankErr.badDate := by
      unfold rerankCore
      rw [hdc]
    exact rerank_of_core_error env localO apiO cands corpus ua key b m lm _ hcore
  | some ks =>
  have hencC : providerEncode localO apiO (get_embedding_provider env ua key b m lm)
      ((sortCorpus corpus).map (fun p => p.abstractNote))
      = some (List.replicate ((sortCorpus corpus).map (fun p => p.abstractNote)).length
          (List.replicate 1024 (0 : ℝ))) := by
    rw [hprov]
    simp only [providerEncode]
    rw [encodeAPI_all_fail _ _ hfail]
  have hencK : providerEncode localO apiO (get_embedding_provider env ua key b m lm)
      (cands.map (fun p => p.summary))
      = some (List.replicate (cands.map (fun p => p.summary)).length
          (List.replicate 1024 (0 : ℝ))) := by
    rw [hprov]
    simp only [providerEncode]
    rw [encodeAPI_all_fail _ _ hfail]
  have hcore := rerankCore_success env localO apiO cands corpus ua key b m lm ks _ _
    hdc hencC hencK
  have hrows : ∀ row ∈ List.replicate (cands.map (fun p => p.summary)).length
      (List.replicate 1024 (0 : ℝ)), ∀ x ∈ row, x = 0 := by
    intro row hrow x hx
    rw [List.eq_of_mem_replicate hrow] at hx
    exact List.eq_of_mem_replicate hx
  have hsim := sim_rows_zero _
    (List.replicate ((sortCorpus corpus).map (fun p => p.abstractNote)).length
      (List.replicate 1024 (0 : ℝ))) hrows
  have hscore := computeScores_all_zero _ (weightList (sortCorpus corpus).length) hsim
  have hlen : (similarityM
      (List.replicate (cands.map (fun p => p.summary)).length (List.replicate 1024 (0 : ℝ)))
      (List.replicate ((sortCorpus corpus).map (fun p => p.abstractNote)).length
        (List.replicate 1024 (0 : ℝ)))).length = cands.length := by
    unfold similarityM
    rw [List.length_map, List.length_replicate, List.length_map]
  rw [hlen] at hscore
  unfold rerank_paper
  rw [hcore, hscore, assignScores_replicate cands 0]
  exact sortByScoreDesc_const _ 0 (by
    intro p hp
    obtain ⟨c0, _, rfl⟩ := List.mem_map.mp hp
    rfl)

/-- Witness for C6: remote provider with a key, every batch call failing. -/
theorem C6_all_remote_fail_witness :
    rerank_paper envEx localOEx apiOEx [candEx] [goodItem] true (some "k") "b" "m" "lm"
      = List.map (fun c => { c with score := 0 }) [candEx] ∧
    (∀ c ∈ rerank_paper envEx localOEx apiOEx [candEx] [goodItem] true (some "k") "b" "m" "lm",
      c.score = 0) :=
  C6_all_remote_fail envEx localOEx apiOEx [candEx] [goodItem] true (some "k")
    "b" "m" "lm" "k" "m" "b" rfl (fun _ => rfl)

/-! ### C1: the score formula on a successful run -/

/-- C1: on a ranking run that completes without error, the returned list is
the stable descending sort of the candidates with scores assigned in input
order, and the score at candidate index `i` equals `10` times the sum over
reference ranks `j` of similarity entry `(i, j)` times the recency weight at
rank `j` (similarity rows in input candidate order, weights over the
recency-sorted reference order). -/
theorem C1_score_formula (env : Env)
    (localO : String → List String → Option (List (List ℝ)))
    (apiO : String → String → String → List String → Option (List (List ℝ)))
    (cands : List ArxivPaper) (corpus : List CorpusItem)
    (ua : Bool) (key : Option String) (b m lm : String)
    (ks : List ℕ) (corpusF candF : List (List ℝ))
    (hdates : corpus.mapM (fun it => strptime it.dateAdded) = some ks)
    (hcorp : providerEncode localO apiO (get_embedding_provider env ua key b m lm)
      ((sortCorpus corpus).map (fun p => p.abstractNote)) = some corpusF)
    (hcand : providerEncode localO apiO (get_embedding_provider env ua key b m lm)
      (cands.map (fun p => p.summary)) = some candF)
    (hlen : corpusF.length = corpus.length) :
    rerank_paper env localO apiO cands corpus ua key b m lm
      = sortByScoreDesc (assignScores cands
          (computeScores (similarityM candF corpusF) (weightList corpus.length))) ∧
    ∀ i, i < candF.length →
      (computeScores (similarityM candF corpusF) (weightList corpus.length)).getD i 0
        = 10 * ∑ j ∈ Finset.range corpus.length,
            (((similarityM candF corpusF).getD i []).getD j 0
              * (weightList corpus.length).getD j 0) := by
  have hcore := rerankCore_success env localO apiO cands corpus ua key b m lm ks corpusF candF
    hdates hcorp hcand
  rw [sortCorpus_length corpus] at hcore
  constructor
  · unfold rerank_paper
    rw [hcore]
  · intro i hi
    have hsim : i < (similarityM candF corpusF).length := by simpa [similarityM] using hi
    rw [computeScores_getD _ _ i hsim, similarityM_getD candF corpusF i hi]
    have hrl : (corpusF.map (fun b2 =>
        dotList (normalizeRow (candF.getD i [])) (normalizeRow b2))).length = corpus.length := by
      simp [hlen]
    rw [dotList_eq_sum _ _ (by rw [hrl, weightList_length]), hrl]
    ring

/-- Witness for C1 on a one-candidate, one-reference run with the local
provider. -/
theorem C1_score_formula_witness :
    rerank_paper envEx localOEx apiOEx [candEx] [goodItem] false none "b" "m" "lm"
      = sortByScoreDesc (assignScores [candEx]
          (computeScores (similarityM [[(1 : ℝ)]] [[(1 : ℝ)]]) (weightList 1))) ∧
    ∀ i, i < ([[(1 : ℝ)]] : List (List ℝ)).length →
      (computeScores (similarityM [[(1 : ℝ)]] [[(1 : ℝ)]]) (weightList 1)).getD i 0
        = 10 * ∑ j ∈ Finset.range 1,
            (((similarityM [[(1 : ℝ)]] [[(1 : ℝ)]]).getD i []).getD j 0
              * (weightList 1).getD j 0) :=
  C1_score_formula envEx localOEx apiOEx [candEx] [goodItem] false none "b" "m" "lm"
    [20240102030405] [[(1 : ℝ)]] [[(1 : ℝ)]] rfl
    (by
      have hs : sortCorpus [goodItem] = [goodItem] := List.mergeSort_singleton goodItem
      rw [hs]
      rfl)
    rfl rfl

end ZoteroArxiv
